import Mathlib

/-!
Verification of the incremental release-mirroring engine in
src/mirror_github_releases.py.

The development is a shallow embedding of the script.  Pure helpers become
Lean functions; the filesystem and the target repository become explicit
state threaded through the definitions; exceptions become explicit flags or
an Except result.  Naming follows the Python source wherever the gate and
Lean allow it; line numbers in comments refer to src/mirror_github_releases.py.

External collaborators are modelled at their interface boundary:
  - the json library: a state file either fails to parse (FData.raw) or
    parses to a JSON value (FData.json j).  The program never inspects the
    raw bytes itself, and json.dump is deterministic, so equality of the
    modelled content coincides with byte equality of the real file.
  - the GitHub API: release and asset listings are inputs; uploads,
    deletions and release creation are deterministic state updates; network
    failures are injected through Boolean oracles (one per operation kind).
  - git commit/push: a Boolean oracle indexed by the attempt number.

JSON values are modelled with one level of structure (atoms, arrays of
atoms, objects with atom fields).  The script itself only ever writes flat
arrays of strings, and every shape the specification mentions (object,
number, non-string array) is expressible, so deeper nesting is irrelevant
to the code under verification.

Integer timestamps stand for the second-granularity datetime values of the
GitHub API; the script compares them through timedelta.total_seconds(),
which is exact on such values.
-/

namespace MirrorEtcher

/-! Part 1: definitions. -/

/-- A leaf JSON value. -/
inductive JAtom where
  | str (s : String)
  | num (n : Int)
  | boolv (b : Bool)
  | null
deriving DecidableEq, Repr

/-- A JSON value as handled by the external json library (one structure
level: see the header comment). -/
inductive J where
  | atom (a : JAtom)
  | arr (elems : List JAtom)
  | obj (fields : List (String × JAtom))
deriving DecidableEq, Repr

/-- Content of one file, as seen through the external json library:
either bytes that fail to parse, or bytes that parse to a JSON value
(for instance because json.dump wrote them). -/
inductive FData where
  | raw (s : String)
  | json (j : J)
deriving DecidableEq, Repr

/-- The local filesystem: a partial map from file names to contents. -/
def Fs : Type := String → Option FData

/-- Write (create or overwrite) one file. -/
def Fs.write (fs : Fs) (name : String) (d : FData) : Fs :=
  fun n => if n = name then some d else fs n

/-- Model of os.replace src dst: dst receives the content of src and src
disappears (line 47 of the source). -/
def os_replace (fs : Fs) (src dst : String) : Fs :=
  fun n => if n = dst then fs src else if n = src then none else fs n

/-- RECORD_FILE = "synced_versions.json" (line 11). -/
def RECORD_FILE : String := "synced_versions.json"

/-- The temporary file name used by save_synced_versions (line 44). -/
def TEMP_RECORD_FILE : String := RECORD_FILE ++ ".tmp"

/-- BATCH_SIZE = 10 (line 10). -/
def BATCH_SIZE : Nat := 10

/-- TIME_DELTA_THRESHOLD = 1 second (line 12). -/
def TIME_DELTA_THRESHOLD : Int := 1

/-- Model of initialize_record_file (lines 16-26): create the record file
with content [] when it is absent.  (The git add call is an external
side effect without influence on the state examined here.) -/
def init_record_file (fs : Fs) : Fs :=
  match fs RECORD_FILE with
  | some _ => fs
  | none => fs.write RECORD_FILE (.json (.arr []))

/-- Model of load_synced_versions (lines 29-39): ensure the file exists,
then parse it; on a parse failure (json.JSONDecodeError) reset the file
to [] and return the empty record.  The function is total: no error
escapes it.  After init_record_file the file is always present, so the
catch-all branch is reached exactly on unparseable content. -/
def load_synced_versions (fs : Fs) : Fs × J :=
  let fs1 := init_record_file fs
  match fs1 RECORD_FILE with
  | some (.json j) => (fs1, j)
  | _ => (fs1.write RECORD_FILE (.json (.arr [])), .arr [])

/-- The first half of save_synced_versions (lines 44-46): the record is
serialized into the temporary file.  This is the state at which an
interruption before os.replace would leave the filesystem. -/
def save_temp_written (fs : Fs) (synced_list : List JAtom) : Fs :=
  fs.write TEMP_RECORD_FILE (.json (.arr synced_list))

/-- Model of save_synced_versions (lines 42-48): write the whole record
to the temporary file, then os.replace it over the canonical file. -/
def save_synced_versions (fs : Fs) (synced_list : List JAtom) : Fs :=
  os_replace (save_temp_written fs synced_list) TEMP_RECORD_FILE RECORD_FILE

/-- One binary attachment of a release, with the fields the script reads:
name, byte size, last-modified timestamp, content type, id (used only to
build the temporary file name), and implicitly a download URL behind the
download oracle. -/
structure Asset where
  id : Nat
  name : String
  size : Nat
  updated_at : Int
  content_type : String
deriving DecidableEq, Repr

/-- Model of get_asset_info (lines 73-78): the dict comprehension maps each
asset name to (size, updated_at); on duplicate names the later entry
overwrites the earlier one, which this recursion reproduces. -/
def get_asset_info : List Asset → String → Option (Nat × Int)
  | [], _ => none
  | a :: rest, n =>
    match get_asset_info rest n with
    | some v => some v
    | none => if a.name = n then some (a.size, a.updated_at) else none

/-- The per-asset staleness decision of lines 121-135, as the Boolean that
determines membership in to_upload: absent from the target, or differing
size, or source timestamp ahead by more than TIME_DELTA_THRESHOLD. -/
def needs_upload (target_info : String → Option (Nat × Int)) (asset : Asset) : Bool :=
  match target_info asset.name with
  | none => true
  | some (target_size, target_time) =>
    if asset.size ≠ target_size then true
    else decide (asset.updated_at - target_time > TIME_DELTA_THRESHOLD)

/-- The derived staleness verdict of the branch taken in lines 121-135. -/
inductive StalenessVerdict where
  | Missing
  | SizeMismatch
  | TimeNewer
  | UpToDate
deriving DecidableEq, Repr

/-- Which branch of lines 121-135 fires for one source asset, in the order
the code tests them. -/
def staleness_verdict (target_info : String → Option (Nat × Int))
    (asset : Asset) : StalenessVerdict :=
  match target_info asset.name with
  | none => .Missing
  | some (target_size, target_time) =>
    if asset.size ≠ target_size then .SizeMismatch
    else if asset.updated_at - target_time > TIME_DELTA_THRESHOLD then .TimeNewer
    else .UpToDate

/-- A target asset is a faithful copy of the source asset a: same name and
size, and not out of date by more than the threshold.  This is exactly the
complement of needs_upload (see needs_upload_eq_false). -/
def asset_ok (target_info : String → Option (Nat × Int)) (a : Asset) : Prop :=
  ∃ t, target_info a.name = some (a.size, t) ∧
    a.updated_at - t ≤ TIME_DELTA_THRESHOLD

/-! The asset transfer loop (lines 81-169).  Network outcomes are injected
through two oracles: dl a is the return value of download_asset for a
(lines 81-107: requests errors are caught inside download_asset, the
partial temporary file is removed, and False is returned), and ul a tells
whether target_release.upload_asset for a succeeds; when it does not,
upload_asset raises a GithubException that the loop does not catch. -/

/-- Observable actions of one pass over the transfer loop. -/
inductive Ev where
  | download_attempt (a : Asset)
  | download_failed (a : Asset)
  | deleted (name : String)
  | uploaded (a : Asset)
deriving DecidableEq, Repr

/-- The asset stored by the target after a successful upload: same name,
size and content type; the platform stamps the upload time now and assigns
its own id (the id is never compared by the script, so it is carried over
unchanged in the model). -/
def uploaded_asset (a : Asset) (now : Int) : Asset :=
  { id := a.id, name := a.name, size := a.size, updated_at := now,
    content_type := a.content_type }

/-- The for loop of lines 142-167.  Arguments: the two oracles, the
snapshot of target assets fetched at line 114 (target_info and the
deletion scan both use this snapshot), the upload timestamp, the remaining
to_upload list, and the current target asset list.  Returns the final
target assets, the events in order, and whether a GithubException escaped
(True exactly when some upload failed; the loop stops there). -/
def sync_upload_loop (dl ul : Asset → Bool) (snapshot : List Asset) (now : Int) :
    List Asset → List Asset → List Asset × List Ev × Bool
  | [], tassets => (tassets, [], false)
  | u :: rest, tassets =>
    if dl u then
      -- lines 151-156: if the name exists in target_info, delete the first
      -- target asset carrying it (the break stops after one deletion)
      match snapshot.find? (fun t => t.name = u.name) with
      | some victim =>
        let tassets1 := tassets.erase victim
        if ul u then
          let tassets2 := tassets1 ++ [uploaded_asset u now]
          let r := sync_upload_loop dl ul snapshot now rest tassets2
          (r.1, .download_attempt u :: .deleted u.name :: .uploaded u :: r.2.1, r.2.2)
        else
          (tassets1, [.download_attempt u, .deleted u.name], true)
      | none =>
        if ul u then
          let tassets2 := tassets ++ [uploaded_asset u now]
          let r := sync_upload_loop dl ul snapshot now rest tassets2
          (r.1, .download_attempt u :: .uploaded u :: r.2.1, r.2.2)
        else
          (tassets, [.download_attempt u], true)
    else
      -- lines 146-148: download failed, skip this asset and continue
      let r := sync_upload_loop dl ul snapshot now rest tassets
      (r.1, .download_attempt u :: .download_failed u :: r.2.1, r.2.2)

/-- Result of sync_release_assets: the target release assets afterwards,
the events, whether an exception escaped, and the Python return value
(meaningful only when raised = false; the source returns True on both
return paths, lines 139 and 169). -/
structure SyncAssetsRes where
  tassets : List Asset
  events : List Ev
  raised : Bool
  retval : Bool
deriving DecidableEq, Repr

/-- Model of sync_release_assets (lines 110-169). -/
def sync_release_assets (dl ul : Asset → Bool) (now : Int)
    (source_assets target_assets : List Asset) : SyncAssetsRes :=
  let target_info := get_asset_info target_assets
  let to_upload := source_assets.filter (needs_upload target_info)
  if to_upload.isEmpty then
    { tassets := target_assets, events := [], raised := false, retval := true }
  else
    let r := sync_upload_loop dl ul target_assets now to_upload target_assets
    { tassets := r.1, events := r.2.1, raised := r.2.2, retval := true }

/-! Releases, the per-release reconciliation (lines 172-194) and the main
loop (lines 197-260). -/

/-- A release as the script reads it from either repository: tag (the key),
title, body, draft and prerelease flags, creation timestamp, and the
assets currently attached to it. -/
structure Release where
  tag_name : String
  title : String
  body : String
  draft : Bool
  prerelease : Bool
  created_at : Int
  assets : List Asset
deriving DecidableEq, Repr

/-- Replace the asset list of the first target release carrying the given
tag (the API mutates that release object in place; lookup is by tag). -/
def update_release : List Release → String → List Asset → List Release
  | [], _, _ => []
  | tr :: rest, tag, newAssets =>
    if tr.tag_name = tag then { tr with assets := newAssets } :: rest
    else tr :: update_release rest tag newAssets

/-- The release named r.tag_name in the target is present and carries a
faithful copy of every asset of r (so the whole release is up to date). -/
def rel_done (target : List Release) (r : Release) : Prop :=
  ∃ tr, target.find? (fun t => t.tag_name = r.tag_name) = some tr ∧
    ∀ a ∈ r.assets, asset_ok (get_asset_info tr.assets) a

/-- Result of sync_single_release: the target repository afterwards, the
transfer events, whether an exception escaped, the Python return value,
and whether a release was created. -/
structure SyncRelRes where
  target : List Release
  events : List Ev
  raised : Bool
  retval : Bool
  created : Bool

/-- Model of sync_single_release (lines 172-194).  When the target release
exists, its assets are synchronized (line 182).  A GithubException raised
by an upload inside that call is caught by the handler of line 184, which
then calls create_git_release on the already existing tag; that call fails
again (the platform refuses a second release on the same tag) and the new
exception escapes, so the raised flag propagates and no release is
created.  When the target release does not exist, it is created with the
same tag, title, body and flags and no assets, and all source assets are
then synchronized from inside the except block, whence any upload
exception also escapes. -/
def sync_single_release (dl ul : Asset → Bool) (now : Int) (src : Release)
    (target : List Release) : SyncRelRes :=
  match target.find? (fun tr => tr.tag_name = src.tag_name) with
  | some tr =>
    let r := sync_release_assets dl ul now src.assets tr.assets
    { target := update_release target src.tag_name r.tassets,
      events := r.events, raised := r.raised, retval := r.retval,
      created := false }
  | none =>
    let target1 := target ++ [{ src with assets := [] }]
    let r := sync_release_assets dl ul now src.assets []
    { target := update_release target1 src.tag_name r.tassets,
      events := r.events, raised := r.raised, retval := r.retval,
      created := true }

/-- Model of lines 223-228: all source releases sorted ascending by
creation time, then drafts excluded.  Python list.sort is a stable
ascending sort by the key, which is exactly what insertionSort computes. -/
def to_sync (releases : List Release) : List Release :=
  (List.insertionSort (fun a b => a.created_at ≤ b.created_at) releases).filter
    (fun r => !r.draft)

/-- Number of successful uploads among the recorded events. -/
def count_uploads (evs : List Ev) : Nat :=
  evs.countP (fun e => match e with | .uploaded _ => true | _ => false)

/-- The mutable state of the reconciliation loop of lines 231-251. -/
structure LoopSt where
  fs : Fs
  target : List Release
  synced : List JAtom
  current_batch : Nat
  last_saved : Nat
  creates : Nat
  uploads : Nat
  events : List Ev
  pushes : Nat

/-- Lines 239-242: a first-time tag is appended to the in-memory record
and counted into the current batch. -/
def record_tag (tag : String) (st : LoopSt) : LoopSt :=
  if st.synced.contains (JAtom.str tag) then st
  else { st with synced := st.synced ++ [JAtom.str tag],
                 current_batch := st.current_batch + 1 }

/-- Lines 244-250: at a full batch, save the record and attempt a git
commit and push; only a successful push resets the batch counter and
advances the last saved count. -/
def batch_checkpoint (push : Nat → Bool) (st : LoopSt) : LoopSt :=
  if st.current_batch ≥ BATCH_SIZE then
    let fs2 := save_synced_versions st.fs st.synced
    if push st.pushes then
      { st with fs := fs2, pushes := st.pushes + 1,
                last_saved := st.synced.length, current_batch := 0 }
    else { st with fs := fs2, pushes := st.pushes + 1 }
  else st

/-- Bookkeeping for one call of sync_single_release (line 238): the target
repository and the counters absorb the outcome of the call. -/
def note_transfer (sr : SyncRelRes) (st : LoopSt) : LoopSt :=
  { st with target := sr.target,
            creates := st.creates + (if sr.created then 1 else 0),
            uploads := st.uploads + count_uploads sr.events,
            events := st.events ++ sr.events }

/-- Model of the for loop at lines 236-250.  push is the outcome oracle of
git_commit_and_push (lines 51-70), indexed by the attempt number; the
Boolean in the result tells whether an exception interrupted the loop
(and was caught by the except of line 252). -/
def main_loop (dl ul : Asset → Bool) (push : Nat → Bool) (now : Int) :
    List Release → LoopSt → LoopSt × Bool
  | [], st => (st, false)
  | r :: rest, st =>
    let sr := sync_single_release dl ul now r st.target
    let st1 := note_transfer sr st
    if sr.raised then (st1, true)
    else if sr.retval then
      main_loop dl ul push now rest (batch_checkpoint push (record_tag r.tag_name st1))
    else
      main_loop dl ul push now rest st1

/-- The world visible to one invocation: the local filesystem and the
target repository. -/
structure World where
  fs : Fs
  target : List Release

/-- Observables of one invocation of main. -/
structure RunRes where
  world : World
  record : List JAtom
  creates : Nat
  uploads : Nat
  caught : Bool
  finalSaved : Bool
  last_saved : Nat
  events : List Ev

/-- Model of main after client initialization (lines 218-260): load the
record, enumerate and sort the source releases, run the loop under the
try of line 235, and in the finally block save and publish once more when
the record grew beyond the last saved count.  The except of line 252 only
prints, so the result is an ok value even when the loop was interrupted;
nothing is re-raised.  A record that parses to something other than a
JSON array makes the script misbehave outside the scope of every claim
(len at line 220 raises for atoms; an array-typed record is the only
shape the script itself ever writes), summarily modelled as an error.
The model is split into the loop-state initializer of lines 231-233, the
loop itself, and the finalization of lines 254-258. -/
def init_loop_st (fs : Fs) (target : List Release) (synced0 : List JAtom) : LoopSt :=
  { fs := fs, target := target, synced := synced0, current_batch := 0,
    last_saved := synced0.length, creates := 0, uploads := 0, events := [],
    pushes := 0 }

/-- The finally block of lines 254-258 applied to the loop state: save (and
then attempt one publish, whose outcome is ignored) exactly when the
record grew past the last saved count, and package the observables. -/
def after_loop (st : LoopSt) (caught : Bool) : RunRes :=
  { world := { fs := if st.synced.length > st.last_saved then
                 save_synced_versions st.fs st.synced else st.fs,
               target := st.target },
    record := st.synced, creates := st.creates, uploads := st.uploads,
    caught := caught, finalSaved := decide (st.synced.length > st.last_saved),
    last_saved := st.last_saved, events := st.events }

def main_run (dl ul : Asset → Bool) (push : Nat → Bool) (now : Int)
    (source : List Release) (w : World) : Except String RunRes :=
  let lr := load_synced_versions w.fs
  match lr.2 with
  | .arr synced0 =>
    let res := main_loop dl ul push now (to_sync source)
      (init_loop_st lr.1 w.target synced0)
    .ok (after_loop res.1 res.2)
  | _ => .error "TypeError"

/-- The final record of a run (empty on the error path). -/
def run_record (x : Except String RunRes) : List JAtom :=
  match x with
  | .ok r => r.record
  | .error _ => []

/-- The events of a run. -/
def run_events (x : Except String RunRes) : List Ev :=
  match x with
  | .ok r => r.events
  | .error _ => []

/-- Whether the run terminated normally (no exception escaped main). -/
def run_is_ok (x : Except String RunRes) : Bool :=
  match x with
  | .ok _ => true
  | .error _ => false

/-- Whether an exception interrupted the loop and was caught. -/
def run_caught (x : Except String RunRes) : Bool :=
  match x with
  | .ok r => r.caught
  | .error _ => false

/-- Whether the finally block performed the final save. -/
def run_final_saved (x : Except String RunRes) : Bool :=
  match x with
  | .ok r => r.finalSaved
  | .error _ => false

/-- The content of the state file after the run. -/
def run_record_file (x : Except String RunRes) : Option FData :=
  match x with
  | .ok r => r.world.fs RECORD_FILE
  | .error _ => none

/-- The number of release creations performed by the run. -/
def run_creates (x : Except String RunRes) : Nat :=
  match x with
  | .ok r => r.creates
  | .error _ => 0

/-- The number of asset uploads performed by the run. -/
def run_uploads (x : Except String RunRes) : Nat :=
  match x with
  | .ok r => r.uploads
  | .error _ => 0

/-- The world left behind by a run (unchanged dummy on the error path). -/
def run_world (x : Except String RunRes) : World :=
  match x with
  | .ok r => r.world
  | .error _ => { fs := fun _ => none, target := [] }

/-- The loop invariant tying the state file to the in-memory record: the
last saved count never exceeds the record length, and when they are equal
the state file already holds the serialized record. -/
def loop_inv (st : LoopSt) : Prop :=
  st.last_saved ≤ st.synced.length ∧
  (st.last_saved = st.synced.length →
    st.fs RECORD_FILE = some (.json (.arr st.synced)))

instance : IsTotal Release (fun a b => a.created_at ≤ b.created_at) :=
  ⟨fun a b => Int.le_total a.created_at b.created_at⟩

instance : IsTrans Release (fun a b => a.created_at ≤ b.created_at) :=
  ⟨fun _ _ _ h1 h2 => le_trans h1 h2⟩

/-! Part 2: theorems. -/

theorem record_ne_temp : RECORD_FILE ≠ TEMP_RECORD_FILE := by decide

/-- Loading a file that holds parseable JSON returns that value and leaves
the filesystem untouched. -/
theorem load_of_json (fs : Fs) (j : J) (h : fs RECORD_FILE = some (.json j)) :
    load_synced_versions fs = (fs, j) := by
  unfold load_synced_versions init_record_file
  simp [h]

/-- After a load, the record file holds exactly the JSON value that the
load returned. -/
theorem load_fixes_record (fs : Fs) :
    (load_synced_versions fs).1 RECORD_FILE =
      some (.json (load_synced_versions fs).2) := by
  unfold load_synced_versions init_record_file Fs.write
  cases h : fs RECORD_FILE with
  | none => simp [h]
  | some d =>
    cases d with
    | raw s => simp [h]
    | json j => simp [h]

/-- The canonical file after a save holds the serialized record, and the
temporary file is gone. -/
theorem save_result (fs : Fs) (l : List JAtom) :
    save_synced_versions fs l RECORD_FILE = some (.json (.arr l)) ∧
    save_synced_versions fs l TEMP_RECORD_FILE = none := by
  unfold save_synced_versions save_temp_written os_replace Fs.write
  constructor
  · simp
  · have hne : TEMP_RECORD_FILE ≠ RECORD_FILE := fun h => record_ne_temp h.symm
    simp [hne]

/-- Files other than the record file and the temporary file are untouched
by a save. -/
theorem save_other (fs : Fs) (l : List JAtom) (n : String)
    (h1 : n ≠ RECORD_FILE) (h2 : n ≠ TEMP_RECORD_FILE) :
    save_synced_versions fs l n = fs n := by
  unfold save_synced_versions save_temp_written os_replace Fs.write
  simp [h1, h2]

/-- C6: save writes the full record by writing the temporary file first
and replacing it over the canonical file; at the interruption point
between the two steps the canonical file still holds its previous valid
content and still loads to the same value. -/
theorem C6_atomic_save (fs : Fs) (l : List JAtom) (j : J)
    (hprev : fs RECORD_FILE = some (.json j)) :
    save_temp_written fs l RECORD_FILE = some (.json j) ∧
    load_synced_versions (save_temp_written fs l) = (save_temp_written fs l, j) := by
  have hrec : save_temp_written fs l RECORD_FILE = some (.json j) := by
    unfold save_temp_written Fs.write
    simp [record_ne_temp, hprev]
  exact ⟨hrec, load_of_json _ j hrec⟩

theorem C6_atomic_save_witness :
    (fun n => if n = RECORD_FILE then some (FData.json (.arr [.str "v1"])) else none :
        Fs) RECORD_FILE = some (FData.json (.arr [.str "v1"])) ∧
    (save_temp_written
        (fun n => if n = RECORD_FILE then some (FData.json (.arr [.str "v1"])) else none)
        [.str "v1", .str "v2"] RECORD_FILE = some (FData.json (.arr [.str "v1"])) ∧
      load_synced_versions (save_temp_written
        (fun n => if n = RECORD_FILE then some (FData.json (.arr [.str "v1"])) else none)
        [.str "v1", .str "v2"]) =
        (save_temp_written
          (fun n => if n = RECORD_FILE then some (FData.json (.arr [.str "v1"])) else none)
          [.str "v1", .str "v2"], J.arr [.str "v1"])) :=
  ⟨by decide,
   C6_atomic_save
     (fun n => if n = RECORD_FILE then some (FData.json (.arr [.str "v1"])) else none)
     [.str "v1", .str "v2"] (J.arr [.str "v1"]) (by decide)⟩

/-- C7: load never raises on a malformed state file (the model is a total
function): an absent file is created holding [] and the empty record is
returned; content that fails to parse is reset to [] and the empty record
is returned. -/
theorem C7_load_recovers (fs : Fs) :
    (fs RECORD_FILE = none →
      load_synced_versions fs =
        (Fs.write fs RECORD_FILE (.json (.arr [])), J.arr [])) ∧
    (∀ s, fs RECORD_FILE = some (.raw s) →
      load_synced_versions fs =
        (Fs.write fs RECORD_FILE (.json (.arr [])), J.arr [])) := by
  constructor
  · intro h
    unfold load_synced_versions init_record_file Fs.write
    simp [h]
  · intro s h
    unfold load_synced_versions init_record_file Fs.write
    simp [h]

theorem C7_load_recovers_witness :
    ((fun _ => none : Fs) RECORD_FILE = none ∧
      load_synced_versions (fun _ => none) =
        (Fs.write (fun _ => none) RECORD_FILE (.json (.arr [])), J.arr [])) ∧
    ((fun n => if n = RECORD_FILE then some (FData.raw "not json") else none : Fs)
        RECORD_FILE = some (FData.raw "not json") ∧
      load_synced_versions (fun n => if n = RECORD_FILE then some (FData.raw "not json") else none) =
        (Fs.write (fun n => if n = RECORD_FILE then some (FData.raw "not json") else none)
          RECORD_FILE (.json (.arr [])), J.arr [])) :=
  ⟨⟨rfl, (C7_load_recovers (fun _ => none)).1 rfl⟩,
   ⟨by decide,
    (C7_load_recovers (fun n => if n = RECORD_FILE then some (FData.raw "not json") else none)).2
      "not json" (by decide)⟩⟩

/-- C10: load performs no shape validation on successfully parsed content:
any state file holding valid JSON that is not a list of strings (an
object, a number, ...) is returned as the record unchanged, with no reset
of the file. -/
theorem C10_no_shape_validation (fs : Fs) (j : J)
    (hj : fs RECORD_FILE = some (.json j))
    (_hnotlist : ∀ l : List String, j ≠ J.arr (l.map JAtom.str)) :
    load_synced_versions fs = (fs, j) :=
  load_of_json fs j hj

theorem C10_no_shape_validation_witness :
    (fun n => if n = RECORD_FILE then some (FData.json (.atom (.num 5))) else none : Fs)
        RECORD_FILE = some (FData.json (.atom (.num 5))) ∧
    load_synced_versions
        (fun n => if n = RECORD_FILE then some (FData.json (.atom (.num 5))) else none) =
      ((fun n => if n = RECORD_FILE then some (FData.json (.atom (.num 5))) else none),
        J.atom (.num 5)) :=
  ⟨by decide,
   C10_no_shape_validation
     (fun n => if n = RECORD_FILE then some (FData.json (.atom (.num 5))) else none)
     (J.atom (.num 5)) (by decide) (fun _ h => J.noConfusion h)⟩

/-- C4: the staleness verdict is decided in short-circuit priority order:
Missing when the target has no asset of that name; else SizeMismatch when
the byte sizes differ (regardless of timestamps); else TimeNewer when the
source timestamp exceeds the target one by more than the fixed 1-second
threshold; else UpToDate; and exactly the non-UpToDate verdicts put the
asset into the transfer list. -/
theorem C4_staleness_priority (target_info : String → Option (Nat × Int))
    (asset : Asset) :
    (target_info asset.name = none → staleness_verdict target_info asset = .Missing) ∧
    (∀ ts tt, target_info asset.name = some (ts, tt) → asset.size ≠ ts →
      staleness_verdict target_info asset = .SizeMismatch) ∧
    (∀ ts tt, target_info asset.name = some (ts, tt) → asset.size = ts →
      asset.updated_at - tt > TIME_DELTA_THRESHOLD →
      staleness_verdict target_info asset = .TimeNewer) ∧
    (∀ ts tt, target_info asset.name = some (ts, tt) → asset.size = ts →
      asset.updated_at - tt ≤ TIME_DELTA_THRESHOLD →
      staleness_verdict target_info asset = .UpToDate) ∧
    (needs_upload target_info asset = true ↔
      staleness_verdict target_info asset ≠ .UpToDate) := by
  refine ⟨?_, ?_, ?_, ?_, ?_⟩
  · intro h
    unfold staleness_verdict
    rw [h]
  · intro ts tt h hsz
    unfold staleness_verdict
    rw [h]
    simp [hsz]
  · intro ts tt h hsz ht
    unfold staleness_verdict
    rw [h]
    simp [hsz, ht]
  · intro ts tt h hsz ht
    unfold staleness_verdict
    rw [h]
    simp [hsz, not_lt.mpr ht]
  · unfold staleness_verdict needs_upload
    cases h : target_info asset.name with
    | none => simp
    | some v =>
      obtain ⟨ts, tt⟩ := v
      by_cases hsz : asset.size = ts
      · by_cases ht : asset.updated_at - tt > TIME_DELTA_THRESHOLD
        · simp [hsz, ht]
        · simp [hsz, ht]
      · simp [hsz]

theorem C4_staleness_priority_witness :
    ((get_asset_info [⟨7, "app.zip", 100, 50, "application/zip"⟩] "app.zip" =
        some (100, 50)) ∧
      (get_asset_info [⟨7, "app.zip", 100, 50, "application/zip"⟩] "doc.pdf" = none)) ∧
    staleness_verdict (get_asset_info [⟨7, "app.zip", 100, 50, "application/zip"⟩])
        ⟨1, "doc.pdf", 3, 0, "application/pdf"⟩ = .Missing ∧
    staleness_verdict (get_asset_info [⟨7, "app.zip", 100, 50, "application/zip"⟩])
        ⟨2, "app.zip", 150, 0, "application/zip"⟩ = .SizeMismatch ∧
    staleness_verdict (get_asset_info [⟨7, "app.zip", 100, 50, "application/zip"⟩])
        ⟨3, "app.zip", 100, 60, "application/zip"⟩ = .TimeNewer ∧
    staleness_verdict (get_asset_info [⟨7, "app.zip", 100, 50, "application/zip"⟩])
        ⟨4, "app.zip", 100, 51, "application/zip"⟩ = .UpToDate ∧
    (needs_upload (get_asset_info [⟨7, "app.zip", 100, 50, "application/zip"⟩])
        ⟨2, "app.zip", 150, 0, "application/zip"⟩ = true ↔
      staleness_verdict (get_asset_info [⟨7, "app.zip", 100, 50, "application/zip"⟩])
        ⟨2, "app.zip", 150, 0, "application/zip"⟩ ≠ .UpToDate) :=
  ⟨⟨by decide, by decide⟩,
   (C4_staleness_priority (get_asset_info [⟨7, "app.zip", 100, 50, "application/zip"⟩])
      ⟨1, "doc.pdf", 3, 0, "application/pdf"⟩).1 (by decide),
   ((C4_staleness_priority (get_asset_info [⟨7, "app.zip", 100, 50, "application/zip"⟩])
      ⟨2, "app.zip", 150, 0, "application/zip"⟩).2.1 100 50 (by decide) (by decide)),
   ((C4_staleness_priority (get_asset_info [⟨7, "app.zip", 100, 50, "application/zip"⟩])
      ⟨3, "app.zip", 100, 60, "application/zip"⟩).2.2.1 100 50 (by decide) (by decide)
      (by decide)),
   ((C4_staleness_priority (get_asset_info [⟨7, "app.zip", 100, 50, "application/zip"⟩])
      ⟨4, "app.zip", 100, 51, "application/zip"⟩).2.2.2.1 100 50 (by decide) (by decide)
      (by decide)),
   ((C4_staleness_priority (get_asset_info [⟨7, "app.zip", 100, 50, "application/zip"⟩])
      ⟨2, "app.zip", 150, 0, "application/zip"⟩).2.2.2.2)⟩

/-- C3 (failing run): with two stale assets a1, a2 and an upload failure on
a1, the loop raises out of sync_release_assets after attempting a1; a2 is
never attempted.  The claim says the sibling a2 would still be attempted;
the code aborts instead (and the escaping GithubException is then caught
by the handler of line 184, which tries to re-create the already existing
release and fails again). -/
theorem C3_upload_failure_aborts_siblings :
    (sync_release_assets (fun _ => true) (fun a => a.id ≠ 1) 1000
        [⟨1, "a.bin", 10, 5, "application/x"⟩, ⟨2, "b.bin", 20, 5, "application/x"⟩]
        []).raised = true ∧
    Ev.download_attempt ⟨1, "a.bin", 10, 5, "application/x"⟩ ∈
      (sync_release_assets (fun _ => true) (fun a => a.id ≠ 1) 1000
        [⟨1, "a.bin", 10, 5, "application/x"⟩, ⟨2, "b.bin", 20, 5, "application/x"⟩]
        []).events ∧
    Ev.download_attempt ⟨2, "b.bin", 20, 5, "application/x"⟩ ∉
      (sync_release_assets (fun _ => true) (fun a => a.id ≠ 1) 1000
        [⟨1, "a.bin", 10, 5, "application/x"⟩, ⟨2, "b.bin", 20, 5, "application/x"⟩]
        []).events := by
  refine ⟨?_, ?_, ?_⟩ <;> decide

/-- By contrast, a download failure really is contained per asset: with the
same two stale assets and a download failure on a1, the loop continues and
attempts (and here completes) a2, and no exception escapes. -/
theorem download_failure_is_contained :
    (sync_release_assets (fun a => a.id ≠ 1) (fun _ => true) 1000
        [⟨1, "a.bin", 10, 5, "application/x"⟩, ⟨2, "b.bin", 20, 5, "application/x"⟩]
        []).raised = false ∧
    Ev.download_failed ⟨1, "a.bin", 10, 5, "application/x"⟩ ∈
      (sync_release_assets (fun a => a.id ≠ 1) (fun _ => true) 1000
        [⟨1, "a.bin", 10, 5, "application/x"⟩, ⟨2, "b.bin", 20, 5, "application/x"⟩]
        []).events ∧
    Ev.uploaded ⟨2, "b.bin", 20, 5, "application/x"⟩ ∈
      (sync_release_assets (fun a => a.id ≠ 1) (fun _ => true) 1000
        [⟨1, "a.bin", 10, 5, "application/x"⟩, ⟨2, "b.bin", 20, 5, "application/x"⟩]
        []).events := by
  refine ⟨?_, ?_, ?_⟩ <;> decide

/-- C8: the releases selected for synchronization contain no draft, are
ordered by creation timestamp ascending, and are exactly (a permutation
of) the non-draft source releases. -/
theorem C8_enumeration (releases : List Release) :
    (∀ r ∈ to_sync releases, r.draft = false) ∧
    (to_sync releases).Pairwise (fun a b => a.created_at ≤ b.created_at) ∧
    (to_sync releases).Perm (releases.filter (fun r => !r.draft)) := by
  refine ⟨?_, ?_, ?_⟩
  · intro r hr
    have h := List.of_mem_filter hr
    simpa using h
  · have hs := List.sorted_insertionSort (fun a b => a.created_at ≤ b.created_at) releases
    exact List.Pairwise.sublist (List.filter_sublist _) hs
  · exact List.Perm.filter _
      (List.perm_insertionSort (fun a b => a.created_at ≤ b.created_at) releases)

theorem C8_enumeration_witness :
    (to_sync [⟨"v2", "t2", "b2", false, false, 20, []⟩,
              ⟨"vd", "td", "bd", true, false, 5, []⟩,
              ⟨"v1", "t1", "b1", false, false, 10, []⟩]).Pairwise
        (fun a b => a.created_at ≤ b.created_at) ∧
    (to_sync [⟨"v2", "t2", "b2", false, false, 20, []⟩,
              ⟨"vd", "td", "bd", true, false, 5, []⟩,
              ⟨"v1", "t1", "b1", false, false, 10, []⟩]).Perm
        ([⟨"v2", "t2", "b2", false, false, 20, []⟩,
          ⟨"vd", "td", "bd", true, false, 5, []⟩,
          ⟨"v1", "t1", "b1", false, false, 10, []⟩].filter (fun r => !r.draft)) ∧
    (⟨"v1", "t1", "b1", false, false, 10, []⟩ : Release).draft = false :=
  ⟨(C8_enumeration _).2.1, (C8_enumeration _).2.2,
   (C8_enumeration [⟨"v2", "t2", "b2", false, false, 20, []⟩,
      ⟨"vd", "td", "bd", true, false, 5, []⟩,
      ⟨"v1", "t1", "b1", false, false, 10, []⟩]).1
     ⟨"v1", "t1", "b1", false, false, 10, []⟩ (by decide)⟩

/-- C1 (failing run): the source release v1.0 has one asset whose download
fails; the target release exists with no assets.  sync_release_assets
skips the asset and still returns True (line 169), so main appends v1.0 to
the sync record and the finally block persists it, although the transfer
of the only asset failed (zero uploads happened).  The claim says the tag
must not be appended in this pass. -/
theorem C1_download_failure_still_recorded :
    Ev.download_failed ⟨1, "app.zip", 100, 10, "application/zip"⟩ ∈
      run_events (main_run (fun _ => false) (fun _ => true) (fun _ => true) 1000
        [⟨"v1.0", "t", "b", false, false, 1, [⟨1, "app.zip", 100, 10, "application/zip"⟩]⟩]
        ⟨(fun _ => none), [⟨"v1.0", "t", "b", false, false, 1, []⟩]⟩) ∧
    run_uploads (main_run (fun _ => false) (fun _ => true) (fun _ => true) 1000
        [⟨"v1.0", "t", "b", false, false, 1, [⟨1, "app.zip", 100, 10, "application/zip"⟩]⟩]
        ⟨(fun _ => none), [⟨"v1.0", "t", "b", false, false, 1, []⟩]⟩) = 0 ∧
    run_record (main_run (fun _ => false) (fun _ => true) (fun _ => true) 1000
        [⟨"v1.0", "t", "b", false, false, 1, [⟨1, "app.zip", 100, 10, "application/zip"⟩]⟩]
        ⟨(fun _ => none), [⟨"v1.0", "t", "b", false, false, 1, []⟩]⟩) =
      [JAtom.str "v1.0"] ∧
    run_record_file (main_run (fun _ => false) (fun _ => true) (fun _ => true) 1000
        [⟨"v1.0", "t", "b", false, false, 1, [⟨1, "app.zip", 100, 10, "application/zip"⟩]⟩]
        ⟨(fun _ => none), [⟨"v1.0", "t", "b", false, false, 1, []⟩]⟩) =
      some (.json (.arr [JAtom.str "v1.0"])) := by
  refine ⟨?_, ?_, ?_, ?_⟩ <;> decide

/-! Loop invariant lemmas: the state file always catches up with the
in-memory record by the end of a run. -/

theorem sync_assets_retval (dl ul : Asset → Bool) (now : Int)
    (sassets tassets : List Asset) :
    (sync_release_assets dl ul now sassets tassets).retval = true := by
  unfold sync_release_assets
  by_cases h : (List.filter (needs_upload (get_asset_info tassets)) sassets).isEmpty
  · simp [h]
  · simp [h]

theorem sync_single_retval (dl ul : Asset → Bool) (now : Int) (src : Release)
    (target : List Release) :
    (sync_single_release dl ul now src target).retval = true := by
  unfold sync_single_release
  cases h : target.find? (fun tr => tr.tag_name = src.tag_name) <;>
    simp [sync_assets_retval]

/-- Unfolding of one loop iteration: since sync_single_release always
returns True when no exception escapes, the Python if at line 238 always
takes its then branch. -/
theorem main_loop_cons (dl ul : Asset → Bool) (push : Nat → Bool) (now : Int)
    (r : Release) (rest : List Release) (st : LoopSt) :
    main_loop dl ul push now (r :: rest) st =
      if (sync_single_release dl ul now r st.target).raised then
        (note_transfer (sync_single_release dl ul now r st.target) st, true)
      else
        main_loop dl ul push now rest
          (batch_checkpoint push (record_tag r.tag_name
            (note_transfer (sync_single_release dl ul now r st.target) st))) := by
  cases hr : (sync_single_release dl ul now r st.target).raised with
  | false => simp [main_loop, hr, sync_single_retval]
  | true => simp [main_loop, hr]

theorem note_transfer_inv (sr : SyncRelRes) (st : LoopSt) (h : loop_inv st) :
    loop_inv (note_transfer sr st) := h

theorem record_tag_inv (tag : String) (st : LoopSt) (h : loop_inv st) :
    loop_inv (record_tag tag st) := by
  unfold record_tag
  split
  · exact h
  · refine ⟨?_, ?_⟩
    · have h1 := h.1
      simp only [List.length_append, List.length_cons, List.length_nil]
      omega
    · intro heq
      exfalso
      have h1 := h.1
      simp only [List.length_append, List.length_cons, List.length_nil] at heq
      omega

theorem batch_checkpoint_inv (push : Nat → Bool) (st : LoopSt) (h : loop_inv st) :
    loop_inv (batch_checkpoint push st) := by
  unfold batch_checkpoint
  split
  · split
    · exact ⟨le_refl _, fun _ => (save_result st.fs st.synced).1⟩
    · exact ⟨h.1, fun _ => (save_result st.fs st.synced).1⟩
  · exact h

theorem main_loop_inv (dl ul : Asset → Bool) (push : Nat → Bool) (now : Int) :
    ∀ (rs : List Release) (st : LoopSt), loop_inv st →
      loop_inv (main_loop dl ul push now rs st).1 := by
  intro rs
  induction rs with
  | nil => exact fun st h => h
  | cons r rest ih =>
    intro st h
    rw [main_loop_cons]
    cases hr : (sync_single_release dl ul now r st.target).raised
    · simp only [hr, Bool.false_eq_true, if_false]
      exact ih _ (batch_checkpoint_inv push _ (record_tag_inv _ _ (note_transfer_inv _ _ h)))
    · simp only [hr, if_true]
      exact note_transfer_inv _ _ h

/-- A run whose record loads as a JSON array reduces to the loop followed
by the finalization. -/
theorem main_run_unfold (dl ul : Asset → Bool) (push : Nat → Bool) (now : Int)
    (source : List Release) (w : World) (synced0 : List JAtom)
    (hload : (load_synced_versions w.fs).2 = J.arr synced0) :
    main_run dl ul push now source w = Except.ok (after_loop
      (main_loop dl ul push now (to_sync source)
        (init_loop_st (load_synced_versions w.fs).1 w.target synced0)).1
      (main_loop dl ul push now (to_sync source)
        (init_loop_st (load_synced_versions w.fs).1 w.target synced0)).2) := by
  unfold main_run
  simp only [hload]

theorem after_loop_record (st : LoopSt) (c : Bool) :
    (after_loop st c).record = st.synced := rfl

theorem after_loop_target (st : LoopSt) (c : Bool) :
    (after_loop st c).world.target = st.target := rfl

/-- Under the loop invariant, the finalization leaves the state file
holding exactly the serialized in-memory record. -/
theorem after_loop_record_file (st : LoopSt) (c : Bool) (h : loop_inv st) :
    (after_loop st c).world.fs RECORD_FILE =
      some (.json (.arr st.synced)) := by
  unfold after_loop
  by_cases hgt : st.synced.length > st.last_saved
  · rw [if_pos hgt]
    exact (save_result st.fs st.synced).1
  · rw [if_neg hgt]
    exact h.2 (le_antisymm h.1 (not_lt.mp hgt))

/-- When the record did not grow past the last saved count, the
finalization does not touch the filesystem. -/
theorem after_loop_fs_no_growth (st : LoopSt) (c : Bool)
    (h : st.synced.length ≤ st.last_saved) :
    (after_loop st c).world.fs = st.fs := by
  unfold after_loop
  rw [if_neg (not_lt.mpr h)]

/-- The loop invariant holds for the initial loop state. -/
theorem init_loop_st_inv (fs : Fs) (target : List Release) (synced0 : List JAtom)
    (h : fs RECORD_FILE = some (.json (.arr synced0))) :
    loop_inv (init_loop_st fs target synced0) :=
  ⟨le_refl _, fun _ => h⟩

/-- Any run on an array-shaped record terminates normally (the except of
line 252 swallows loop interruptions), and the finally block leaves the
state file holding exactly the serialized in-memory record: it saves when
the record grew past the last saved count, and otherwise the file already
held the record. -/
theorem main_run_ok_record_file (dl ul : Asset → Bool) (push : Nat → Bool)
    (now : Int) (source : List Release) (w : World) (synced0 : List JAtom)
    (hload : (load_synced_versions w.fs).2 = J.arr synced0) :
    run_is_ok (main_run dl ul push now source w) = true ∧
    run_record_file (main_run dl ul push now source w) =
      some (.json (.arr (run_record (main_run dl ul push now source w)))) := by
  have hfix := load_fixes_record w.fs
  rw [hload] at hfix
  have hinv := main_loop_inv dl ul push now (to_sync source)
    (init_loop_st (load_synced_versions w.fs).1 w.target synced0)
    (init_loop_st_inv _ _ _ hfix)
  rw [main_run_unfold dl ul push now source w synced0 hload]
  exact ⟨rfl, after_loop_record_file _ _ hinv⟩

/-- C2 (counterexample): a run whose only release exists in the target and
whose single asset upload fails.  The exception interrupts the loop (the
caught flag is set), yet main returns normally (ok result: nothing is
re-raised, the process will exit with status 0), and no final save is
performed either, because no release had completed since the last save.
The claim asserted a final save plus a re-raise. -/
theorem C2_counterexample_swallowed :
    run_caught (main_run (fun _ => true) (fun _ => false) (fun _ => true) 1000
        [⟨"v1.0", "t", "b", false, false, 1, [⟨1, "app.zip", 100, 10, "application/zip"⟩]⟩]
        ⟨(fun _ => none), [⟨"v1.0", "t", "b", false, false, 1, []⟩]⟩) = true ∧
    run_is_ok (main_run (fun _ => true) (fun _ => false) (fun _ => true) 1000
        [⟨"v1.0", "t", "b", false, false, 1, [⟨1, "app.zip", 100, 10, "application/zip"⟩]⟩]
        ⟨(fun _ => none), [⟨"v1.0", "t", "b", false, false, 1, []⟩]⟩) = true ∧
    run_final_saved (main_run (fun _ => true) (fun _ => false) (fun _ => true) 1000
        [⟨"v1.0", "t", "b", false, false, 1, [⟨1, "app.zip", 100, 10, "application/zip"⟩]⟩]
        ⟨(fun _ => none), [⟨"v1.0", "t", "b", false, false, 1, []⟩]⟩) = false := by
  refine ⟨?_, ?_, ?_⟩ <;> decide

/-- C2 (amended): when an unhandled exception interrupts the loop, main
catches and logs it and still reaches its finalization: the finally block
saves (and then attempts a publish) exactly when the in-memory record
grew beyond the last saved count, so the state file ends up holding the
full record of the releases completed so far; the run then terminates
normally — the error is not re-raised. -/
theorem C2_amended_finalization (dl ul : Asset → Bool) (push : Nat → Bool)
    (now : Int) (source : List Release) (w : World) (synced0 : List JAtom)
    (hload : (load_synced_versions w.fs).2 = J.arr synced0) :
    run_is_ok (main_run dl ul push now source w) = true ∧
    run_record_file (main_run dl ul push now source w) =
      some (.json (.arr (run_record (main_run dl ul push now source w)))) :=
  main_run_ok_record_file dl ul push now source w synced0 hload

theorem C2_amended_finalization_witness :
    (load_synced_versions (fun _ => none)).2 = J.arr [] ∧
    (run_is_ok (main_run (fun _ => true) (fun _ => false) (fun _ => true) 1000
        [⟨"v1.0", "t", "b", false, false, 1, [⟨1, "app.zip", 100, 10, "application/zip"⟩]⟩]
        ⟨(fun _ => none), [⟨"v1.0", "t", "b", false, false, 1, []⟩]⟩) = true ∧
      run_record_file (main_run (fun _ => true) (fun _ => false) (fun _ => true) 1000
        [⟨"v1.0", "t", "b", false, false, 1, [⟨1, "app.zip", 100, 10, "application/zip"⟩]⟩]
        ⟨(fun _ => none), [⟨"v1.0", "t", "b", false, false, 1, []⟩]⟩) =
        some (.json (.arr (run_record (main_run (fun _ => true) (fun _ => false)
          (fun _ => true) 1000
          [⟨"v1.0", "t", "b", false, false, 1, [⟨1, "app.zip", 100, 10, "application/zip"⟩]⟩]
          ⟨(fun _ => none), [⟨"v1.0", "t", "b", false, false, 1, []⟩]⟩))))) :=
  ⟨by decide,
   C2_amended_finalization (fun _ => true) (fun _ => false) (fun _ => true) 1000
     [⟨"v1.0", "t", "b", false, false, 1, [⟨1, "app.zip", 100, 10, "application/zip"⟩]⟩]
     ⟨(fun _ => none), [⟨"v1.0", "t", "b", false, false, 1, []⟩]⟩ [] (by decide)⟩

/-! Append-only behaviour of the in-memory record. -/

theorem note_transfer_synced (sr : SyncRelRes) (st : LoopSt) :
    (note_transfer sr st).synced = st.synced := rfl

theorem note_transfer_target (sr : SyncRelRes) (st : LoopSt) :
    (note_transfer sr st).target = sr.target := rfl

theorem record_tag_target (tag : String) (st : LoopSt) :
    (record_tag tag st).target = st.target := by
  unfold record_tag
  split <;> rfl

theorem batch_checkpoint_target (push : Nat → Bool) (st : LoopSt) :
    (batch_checkpoint push st).target = st.target := by
  unfold batch_checkpoint
  by_cases h1 : st.current_batch ≥ BATCH_SIZE
  · by_cases h2 : push st.pushes <;> simp [h1, h2]
  · simp [h1]

theorem record_tag_synced (tag : String) (st : LoopSt) :
    ∃ new, (record_tag tag st).synced = st.synced ++ new ∧
      (st.synced.Nodup → (record_tag tag st).synced.Nodup) := by
  unfold record_tag
  split
  · exact ⟨[], by simp, fun h => h⟩
  · rename_i hc
    refine ⟨[JAtom.str tag], rfl, ?_⟩
    intro h
    rw [List.nodup_append]
    refine ⟨h, List.nodup_singleton _, ?_⟩
    intro x hx hx1
    simp only [List.mem_singleton] at hx1
    subst hx1
    exact hc (by simpa using hx)

theorem batch_checkpoint_synced (push : Nat → Bool) (st : LoopSt) :
    (batch_checkpoint push st).synced = st.synced := by
  unfold batch_checkpoint
  by_cases h1 : st.current_batch ≥ BATCH_SIZE
  · by_cases h2 : push st.pushes <;> simp [h1, h2]
  · simp [h1]

theorem main_loop_synced (dl ul : Asset → Bool) (push : Nat → Bool) (now : Int) :
    ∀ (rs : List Release) (st : LoopSt),
      ∃ new, (main_loop dl ul push now rs st).1.synced = st.synced ++ new ∧
        (st.synced.Nodup → (main_loop dl ul push now rs st).1.synced.Nodup) := by
  intro rs
  induction rs with
  | nil => exact fun st => ⟨[], by simp [main_loop], fun h => h⟩
  | cons r rest ih =>
    intro st
    rw [main_loop_cons]
    cases hr : (sync_single_release dl ul now r st.target).raised
    · simp only [Bool.false_eq_true, if_false]
      obtain ⟨n1, hn1, hd1⟩ :=
        record_tag_synced r.tag_name
          (note_transfer (sync_single_release dl ul now r st.target) st)
      obtain ⟨n2, hn2, hd2⟩ :=
        ih (batch_checkpoint push (record_tag r.tag_name
          (note_transfer (sync_single_release dl ul now r st.target) st)))
      refine ⟨n1 ++ n2, ?_, ?_⟩
      · rw [hn2, batch_checkpoint_synced, hn1, note_transfer_synced, List.append_assoc]
      · intro h
        apply hd2
        rw [batch_checkpoint_synced]
        exact hd1 h
    · simp only [if_true]
      exact ⟨[], by rw [note_transfer_synced, List.append_nil], fun h => h⟩

/-- C9: starting from a duplicate-free loaded record, the in-memory record
only ever grows by appended tags not already present: the final record
extends the loaded one (no entry removed or reordered) and stays free of
duplicates. -/
theorem C9_record_append_only (dl ul : Asset → Bool) (push : Nat → Bool)
    (now : Int) (source : List Release) (w : World) (synced0 : List JAtom)
    (hload : (load_synced_versions w.fs).2 = J.arr synced0)
    (hnd : synced0.Nodup) :
    ∃ new, run_record (main_run dl ul push now source w) = synced0 ++ new ∧
      (run_record (main_run dl ul push now source w)).Nodup := by
  obtain ⟨new, hs, hd⟩ := main_loop_synced dl ul push now (to_sync source)
    (init_loop_st (load_synced_versions w.fs).1 w.target synced0)
  rw [main_run_unfold dl ul push now source w synced0 hload]
  simp only [run_record, after_loop_record]
  exact ⟨new, hs, hd hnd⟩

theorem C9_record_append_only_witness :
    (load_synced_versions (fun _ => none)).2 = J.arr [] ∧
    (run_record (main_run (fun _ => true) (fun _ => true) (fun _ => true) 1000
        [⟨"v1.0", "t", "b", false, false, 1, [⟨1, "app.zip", 100, 10, "application/zip"⟩]⟩]
        ⟨(fun _ => none), [⟨"v1.0", "t", "b", false, false, 1, []⟩]⟩)).Nodup := by
  refine ⟨by decide, ?_⟩
  obtain ⟨new, hs, hd⟩ := C9_record_append_only (fun _ => true) (fun _ => true)
    (fun _ => true) 1000
    [⟨"v1.0", "t", "b", false, false, 1, [⟨1, "app.zip", 100, 10, "application/zip"⟩]⟩]
    ⟨(fun _ => none), [⟨"v1.0", "t", "b", false, false, 1, []⟩]⟩ [] (by decide)
    List.nodup_nil
  exact hd

/-! Effect of the transfer loop on asset lookups, towards idempotence. -/

theorem get_asset_info_append (l : List Asset) (x : Asset) (n : String) :
    get_asset_info (l ++ [x]) n =
      if x.name = n then some (x.size, x.updated_at) else get_asset_info l n := by
  induction l with
  | nil =>
    by_cases hx : x.name = n <;> simp [get_asset_info, hx]
  | cons a rest ih =>
    rw [List.cons_append]
    by_cases hx : x.name = n
    · simp only [get_asset_info, ih, hx, if_true]
    · simp only [get_asset_info, ih, hx, if_false]

theorem get_asset_info_erase (l : List Asset) (v : Asset) (n : String)
    (hv : v.name ≠ n) : get_asset_info (l.erase v) n = get_asset_info l n := by
  induction l with
  | nil => rfl
  | cons a rest ih =>
    rw [List.erase_cons]
    by_cases ha : a = v
    · subst ha
      rw [if_pos (by simp)]
      cases h : get_asset_info rest n <;> simp [get_asset_info, h, hv]
    · rw [if_neg (by simpa using ha)]
      simp only [get_asset_info, ih]

theorem needs_upload_eq_false (ti : String → Option (Nat × Int)) (a : Asset) :
    needs_upload ti a = false ↔ asset_ok ti a := by
  unfold needs_upload asset_ok
  cases h : ti a.name with
  | none => simp
  | some v =>
    obtain ⟨ts, tt⟩ := v
    by_cases hsz : a.size = ts
    · subst hsz
      simp [TIME_DELTA_THRESHOLD]
    · simp [hsz, Ne.symm hsz]

theorem uploaded_asset_name (a : Asset) (now : Int) :
    (uploaded_asset a now).name = a.name := rfl

theorem uploaded_asset_size (a : Asset) (now : Int) :
    (uploaded_asset a now).size = a.size := rfl

theorem uploaded_asset_time (a : Asset) (now : Int) :
    (uploaded_asset a now).updated_at = now := rfl

/-- When every network operation succeeds, the transfer loop raises
nothing, every asset of the (duplicate-free) to_upload list ends up in the
target with its source size and the upload timestamp, and lookups of all
other names are untouched. -/
theorem sync_upload_loop_all_ok (snapshot : List Asset) (now : Int) :
    ∀ (us tassets : List Asset), (us.map Asset.name).Nodup →
      (sync_upload_loop (fun _ => true) (fun _ => true) snapshot now us tassets).2.2
          = false ∧
      (∀ u ∈ us,
        get_asset_info
          (sync_upload_loop (fun _ => true) (fun _ => true) snapshot now us tassets).1
          u.name = some (u.size, now)) ∧
      (∀ n, n ∉ us.map Asset.name →
        get_asset_info
          (sync_upload_loop (fun _ => true) (fun _ => true) snapshot now us tassets).1
          n = get_asset_info tassets n) := by
  intro us
  induction us with
  | nil =>
    intro tassets _
    exact ⟨rfl, by simp, fun n _ => rfl⟩
  | cons u rest ih =>
    intro tassets hnd
    rw [List.map_cons, List.nodup_cons] at hnd
    obtain ⟨hu, hnd'⟩ := hnd
    cases hfind : snapshot.find? (fun t => t.name = u.name) with
    | some victim =>
      have hvn : victim.name = u.name := by
        have := List.find?_some hfind
        simpa using this
      obtain ⟨hr, hmem, hpres⟩ := ih (tassets.erase victim ++ [uploaded_asset u now]) hnd'
      refine ⟨?_, ?_, ?_⟩
      · simpa [sync_upload_loop, hfind] using hr
      · intro u' hu'
        rw [List.mem_cons] at hu'
        cases hu' with
        | inl heq =>
          subst heq
          have hkeep := hpres u'.name hu
          simp [sync_upload_loop, hfind, hkeep, get_asset_info_append,
            uploaded_asset_name, uploaded_asset_size, uploaded_asset_time]
        | inr hrest =>
          simpa [sync_upload_loop, hfind] using hmem u' hrest
      · intro n hn
        rw [List.map_cons, List.mem_cons] at hn
        push_neg at hn
        obtain ⟨hn1, hn2⟩ := hn
        have hkeep := hpres n hn2
        have hvne : victim.name ≠ n := by rw [hvn]; exact Ne.symm hn1
        simp [sync_upload_loop, hfind, hkeep, get_asset_info_append,
          uploaded_asset_name, Ne.symm hn1, get_asset_info_erase _ _ _ hvne]
    | none =>
      obtain ⟨hr, hmem, hpres⟩ := ih (tassets ++ [uploaded_asset u now]) hnd'
      refine ⟨?_, ?_, ?_⟩
      · simpa [sync_upload_loop, hfind] using hr
      · intro u' hu'
        rw [List.mem_cons] at hu'
        cases hu' with
        | inl heq =>
          subst heq
          have hkeep := hpres u'.name hu
          simp [sync_upload_loop, hfind, hkeep, get_asset_info_append,
            uploaded_asset_name, uploaded_asset_size, uploaded_asset_time]
        | inr hrest =>
          simpa [sync_upload_loop, hfind] using hmem u' hrest
      · intro n hn
        rw [List.map_cons, List.mem_cons] at hn
        push_neg at hn
        obtain ⟨hn1, hn2⟩ := hn
        have hkeep := hpres n hn2
        simp [sync_upload_loop, hfind, hkeep, get_asset_info_append,
          uploaded_asset_name, Ne.symm hn1]

/-- When every asset of the source release is already a faithful copy in
the target, sync_release_assets selects nothing and takes the early
return of line 139: no event, no exception, no change, return True.  This
holds for arbitrary oracles, since nothing is attempted. -/
theorem sync_release_assets_noop (dl ul : Asset → Bool) (now : Int)
    (sassets tassets : List Asset)
    (h : ∀ a ∈ sassets, asset_ok (get_asset_info tassets) a) :
    sync_release_assets dl ul now sassets tassets =
      { tassets := tassets, events := [], raised := false, retval := true } := by
  have hf : sassets.filter (needs_upload (get_asset_info tassets)) = [] := by
    rw [List.filter_eq_nil_iff]
    intro a ha
    have := (needs_upload_eq_false (get_asset_info tassets) a).mpr (h a ha)
    simp [this]
  unfold sync_release_assets
  simp [hf]

theorem asset_ok_congr (ti1 ti2 : String → Option (Nat × Int)) (a : Asset)
    (h : ti1 a.name = ti2 a.name) : asset_ok ti1 a ↔ asset_ok ti2 a := by
  unfold asset_ok
  rw [h]

/-- When every network operation succeeds, sync_release_assets raises
nothing and leaves every asset of the (duplicate-free) source release
faithfully copied in the target. -/
theorem sync_release_assets_all_ok (now : Int) (sassets tassets : List Asset)
    (hnd : (sassets.map Asset.name).Nodup)
    (htime : ∀ a ∈ sassets, a.updated_at ≤ now) :
    (sync_release_assets (fun _ => true) (fun _ => true) now sassets tassets).raised
        = false ∧
    ∀ a ∈ sassets,
      asset_ok (get_asset_info
        (sync_release_assets (fun _ => true) (fun _ => true) now sassets
          tassets).tassets) a := by
  by_cases hemp : (sassets.filter (needs_upload (get_asset_info tassets))).isEmpty
  · have hnil : sassets.filter (needs_upload (get_asset_info tassets)) = [] := by
      simpa [List.isEmpty_iff] using hemp
    refine ⟨?_, ?_⟩
    · unfold sync_release_assets
      simp [hnil]
    · intro a ha
      have hn := List.filter_eq_nil_iff.mp hnil a ha
      have hok := (needs_upload_eq_false (get_asset_info tassets) a).mp
        (by simpa using hn)
      have htas : (sync_release_assets (fun _ => true) (fun _ => true) now sassets
          tassets).tassets = tassets := by
        unfold sync_release_assets
        simp [hnil]
      rw [htas]
      exact hok
  · have hnd2 : ((sassets.filter (needs_upload (get_asset_info tassets))).map
        Asset.name).Nodup :=
      List.Nodup.sublist (List.Sublist.map _ (List.filter_sublist _)) hnd
    obtain ⟨hr, hmem, hpres⟩ := sync_upload_loop_all_ok tassets now
      (sassets.filter (needs_upload (get_asset_info tassets))) tassets hnd2
    have htas : (sync_release_assets (fun _ => true) (fun _ => true) now sassets
        tassets).tassets =
        (sync_upload_loop (fun _ => true) (fun _ => true) tassets now
          (sassets.filter (needs_upload (get_asset_info tassets))) tassets).1 := by
      unfold sync_release_assets
      rw [if_neg hemp]
    refine ⟨?_, ?_⟩
    · have hra : (sync_release_assets (fun _ => true) (fun _ => true) now sassets
          tassets).raised =
          (sync_upload_loop (fun _ => true) (fun _ => true) tassets now
            (sassets.filter (needs_upload (get_asset_info tassets))) tassets).2.2 := by
        unfold sync_release_assets
        rw [if_neg hemp]
      rw [hra]
      exact hr
    · intro a ha
      rw [htas]
      by_cases hn : needs_upload (get_asset_info tassets) a
      · have hin : a ∈ sassets.filter (needs_upload (get_asset_info tassets)) :=
          List.mem_filter.mpr ⟨ha, hn⟩
        have hok : asset_ok (get_asset_info
            (sync_upload_loop (fun _ => true) (fun _ => true) tassets now
              (sassets.filter (needs_upload (get_asset_info tassets))) tassets).1) a := by
          unfold asset_ok
          refine ⟨now, hmem a hin, ?_⟩
          have := htime a ha
          simp only [TIME_DELTA_THRESHOLD]
          omega
        exact hok
      · have hnin : a.name ∉ (sassets.filter
            (needs_upload (get_asset_info tassets))).map Asset.name := by
          intro hcontra
          obtain ⟨b, hb, hbn⟩ := List.mem_map.mp hcontra
          have hbs : b ∈ sassets := (List.mem_filter.mp hb).1
          have hba : b = a := List.inj_on_of_nodup_map hnd hbs ha hbn
          subst hba
          exact (by simpa using hn : ¬ _) (List.mem_filter.mp hb).2
        have hkeep := hpres a.name hnin
        exact (asset_ok_congr _ _ a hkeep).mpr
          ((needs_upload_eq_false (get_asset_info tassets) a).mp (by simpa using hn))

/-! Lookup and update of target releases by tag. -/

/-- Updating the found release with its own asset list changes nothing. -/
theorem find_update_self (target : List Release) (tag : String) (tr : Release)
    (h : target.find? (fun t => t.tag_name = tag) = some tr) :
    update_release target tag tr.assets = target := by
  induction target with
  | nil => simp at h
  | cons a rest ih =>
    by_cases ha : a.tag_name = tag
    · rw [List.find?_cons_of_pos _ (by simpa using ha)] at h
      have : a = tr := by simpa using h
      subst this
      unfold update_release
      rw [if_pos ha]
    · rw [List.find?_cons_of_neg _ (by simpa using ha)] at h
      unfold update_release
      rw [if_neg ha, ih h]

/-- After an update, the lookup of the same tag yields the found release
with the new asset list. -/
theorem find_update_eq (target : List Release) (tag : String) (tr : Release)
    (newAssets : List Asset)
    (h : target.find? (fun t => t.tag_name = tag) = some tr) :
    (update_release target tag newAssets).find? (fun t => t.tag_name = tag) =
      some { tr with assets := newAssets } := by
  induction target with
  | nil => simp at h
  | cons a rest ih =>
    by_cases ha : a.tag_name = tag
    · rw [List.find?_cons_of_pos _ (by simpa using ha)] at h
      have : a = tr := by simpa using h
      subst this
      unfold update_release
      rw [if_pos ha]
      exact List.find?_cons_of_pos _ (by simpa using ha)
    · rw [List.find?_cons_of_neg _ (by simpa using ha)] at h
      unfold update_release
      rw [if_neg ha, List.find?_cons_of_neg _ (by simpa using ha)]
      exact ih h

/-- An update keyed on one tag leaves lookups of every other tag
unchanged. -/
theorem find_update_ne (target : List Release) (tag otherTag : String)
    (newAssets : List Asset) (hne : otherTag ≠ tag) :
    (update_release target tag newAssets).find? (fun t => t.tag_name = otherTag) =
      target.find? (fun t => t.tag_name = otherTag) := by
  induction target with
  | nil => rfl
  | cons a rest ih =>
    by_cases ha : a.tag_name = tag
    · unfold update_release
      rw [if_pos ha]
      have hnot : ¬ a.tag_name = otherTag := fun hcontra =>
        hne (hcontra ▸ ha)
      rw [List.find?_cons_of_neg _ (by simpa using hnot),
        List.find?_cons_of_neg _ (by simpa using hnot)]
    · unfold update_release
      rw [if_neg ha]
      by_cases hb : a.tag_name = otherTag
      · rw [List.find?_cons_of_pos _ (by simpa using hb),
          List.find?_cons_of_pos _ (by simpa using hb)]
      · rw [List.find?_cons_of_neg _ (by simpa using hb),
          List.find?_cons_of_neg _ (by simpa using hb)]
        exact ih

/-- Reconciling one release does not disturb the completeness of any
release with a different tag, whatever the network does. -/
theorem sync_single_release_preserves (dl ul : Asset → Bool) (now : Int)
    (src : Release) (target : List Release) (r' : Release)
    (hne : r'.tag_name ≠ src.tag_name)
    (h : rel_done target r') :
    rel_done (sync_single_release dl ul now src target).target r' := by
  obtain ⟨tr', hfind, hcov⟩ := h
  have htgt : (sync_single_release dl ul now src target).target =
      match target.find? (fun tr => tr.tag_name = src.tag_name) with
      | some _ => update_release target src.tag_name
          (sync_release_assets dl ul now src.assets
            ((target.find? (fun tr => tr.tag_name = src.tag_name)).getD src).assets).tassets
      | none => update_release (target ++ [{ src with assets := [] }]) src.tag_name
          (sync_release_assets dl ul now src.assets []).tassets := by
    unfold sync_single_release
    cases target.find? (fun tr => tr.tag_name = src.tag_name) <;> rfl
  cases hf : target.find? (fun tr => tr.tag_name = src.tag_name) with
  | some tr =>
    rw [htgt, hf]
    exact ⟨tr', by rw [find_update_ne _ _ _ _ hne]; exact hfind, hcov⟩
  | none =>
    rw [htgt, hf]
    refine ⟨tr', ?_, hcov⟩
    rw [find_update_ne _ _ _ _ hne, List.find?_append, hfind, Option.or_some]

/-- With a fully successful network, reconciling one (duplicate-free)
release raises nothing and leaves that release complete in the target,
whether it had to be created or only updated. -/
theorem sync_single_release_all_ok (now : Int) (src : Release)
    (target : List Release)
    (hnd : (src.assets.map Asset.name).Nodup)
    (htime : ∀ a ∈ src.assets, a.updated_at ≤ now) :
    (sync_single_release (fun _ => true) (fun _ => true) now src target).raised
        = false ∧
    rel_done (sync_single_release (fun _ => true) (fun _ => true) now src
      target).target src := by
  unfold sync_single_release
  cases hf : target.find? (fun tr => tr.tag_name = src.tag_name) with
  | some tr =>
    obtain ⟨hr, hcov⟩ := sync_release_assets_all_ok now src.assets tr.assets hnd htime
    refine ⟨hr, ?_⟩
    exact ⟨_, find_update_eq target src.tag_name tr _ hf, hcov⟩
  | none =>
    obtain ⟨hr, hcov⟩ := sync_release_assets_all_ok now src.assets [] hnd htime
    refine ⟨hr, ?_⟩
    have hfind1 : (target ++ [{ src with assets := [] }]).find?
        (fun t => t.tag_name = src.tag_name) =
        some { src with assets := ([] : List Asset) } := by
      rw [List.find?_append, hf]
      simp
    exact ⟨_, find_update_eq _ src.tag_name _ _ hfind1, hcov⟩

/-- Reconciling an already complete release is a no-operation: the target
release is found, no asset is selected, and the source returns True
without touching anything. -/
theorem sync_single_release_noop (dl ul : Asset → Bool) (now : Int)
    (src : Release) (target : List Release)
    (h : rel_done target src) :
    sync_single_release dl ul now src target =
      { target := target, events := [], raised := false, retval := true,
        created := false } := by
  obtain ⟨tr, hfind, hcov⟩ := h
  unfold sync_single_release
  simp only [hfind, sync_release_assets_noop dl ul now src.assets tr.assets hcov]
  rw [find_update_self target src.tag_name tr hfind]

/-! Main-loop level facts towards idempotence. -/

theorem record_tag_mem (tag : String) (st : LoopSt) :
    JAtom.str tag ∈ (record_tag tag st).synced := by
  unfold record_tag
  split
  · rename_i hc
    simpa using hc
  · simp

theorem record_tag_noop (tag : String) (st : LoopSt)
    (h : JAtom.str tag ∈ st.synced) : record_tag tag st = st := by
  unfold record_tag
  rw [if_pos (by simpa using h)]

theorem batch_checkpoint_noop (push : Nat → Bool) (st : LoopSt)
    (h : st.current_batch < BATCH_SIZE) : batch_checkpoint push st = st := by
  unfold batch_checkpoint
  rw [if_neg (by omega)]

theorem note_transfer_noop (st : LoopSt) :
    note_transfer
      { target := st.target, events := [], raised := false,
        retval := true, created := false } st = st := by
  cases st
  simp [note_transfer, count_uploads]

/-- Whatever the network does, processing a list of releases never
disturbs the completeness of a release whose tag is not in the list. -/
theorem main_loop_preserves_done (dl ul : Asset → Bool) (push : Nat → Bool)
    (now : Int) :
    ∀ (rs : List Release) (st : LoopSt) (r' : Release),
      r'.tag_name ∉ rs.map Release.tag_name →
      rel_done st.target r' →
      rel_done (main_loop dl ul push now rs st).1.target r' := by
  intro rs
  induction rs with
  | nil => exact fun st r' _ h => h
  | cons r rest ih =>
    intro st r' hnin h
    rw [List.map_cons, List.mem_cons] at hnin
    push_neg at hnin
    obtain ⟨hne, hrest⟩ := hnin
    rw [main_loop_cons]
    cases hr : (sync_single_release dl ul now r st.target).raised
    · simp only [Bool.false_eq_true, if_false]
      apply ih _ _ hrest
      rw [batch_checkpoint_target, record_tag_target, note_transfer_target]
      exact sync_single_release_preserves dl ul now r st.target r' hne h
    · simp only [if_true]
      have hp := sync_single_release_preserves dl ul now r st.target r' hne h
      simpa [note_transfer_target] using hp

/-- With a fully successful network, the loop is never interrupted and
every processed release ends up complete in the target and recorded in
the in-memory record. -/
theorem main_loop_all_ok (push : Nat → Bool) (now : Int) :
    ∀ (rs : List Release) (st : LoopSt),
      (rs.map Release.tag_name).Nodup →
      (∀ r ∈ rs, (r.assets.map Asset.name).Nodup) →
      (∀ r ∈ rs, ∀ a ∈ r.assets, a.updated_at ≤ now) →
      (main_loop (fun _ => true) (fun _ => true) push now rs st).2 = false ∧
      ∀ r ∈ rs,
        rel_done (main_loop (fun _ => true) (fun _ => true) push now rs st).1.target
          r ∧
        JAtom.str r.tag_name ∈
          (main_loop (fun _ => true) (fun _ => true) push now rs st).1.synced := by
  intro rs
  induction rs with
  | nil =>
    intro st _ _ _
    exact ⟨rfl, by simp⟩
  | cons r rest ih =>
    intro st hnd hassets htime
    rw [List.map_cons, List.nodup_cons] at hnd
    obtain ⟨htag, hnd'⟩ := hnd
    obtain ⟨hr0, hdone0⟩ := sync_single_release_all_ok now r st.target
      (hassets r (List.mem_cons_self r rest)) (htime r (List.mem_cons_self r rest))
    rw [main_loop_cons, hr0]
    simp only [Bool.false_eq_true, if_false]
    have hdone3 : rel_done (batch_checkpoint push (record_tag r.tag_name
        (note_transfer (sync_single_release (fun _ => true) (fun _ => true) now r
          st.target) st))).target r := by
      rw [batch_checkpoint_target, record_tag_target, note_transfer_target]
      exact hdone0
    have hmem3 : JAtom.str r.tag_name ∈ (batch_checkpoint push (record_tag r.tag_name
        (note_transfer (sync_single_release (fun _ => true) (fun _ => true) now r
          st.target) st))).synced := by
      rw [batch_checkpoint_synced]
      exact record_tag_mem r.tag_name _
    obtain ⟨hcaught, hrest⟩ := ih (batch_checkpoint push (record_tag r.tag_name
        (note_transfer (sync_single_release (fun _ => true) (fun _ => true) now r
          st.target) st))) hnd'
      (fun r' hr' => hassets r' (List.mem_cons_of_mem _ hr'))
      (fun r' hr' => htime r' (List.mem_cons_of_mem _ hr'))
    refine ⟨hcaught, ?_⟩
    intro r' hr'
    rw [List.mem_cons] at hr'
    cases hr' with
    | inl heq =>
      subst heq
      constructor
      · exact main_loop_preserves_done _ _ push now rest _ r' htag hdone3
      · obtain ⟨new, hs, _⟩ := main_loop_synced (fun _ => true) (fun _ => true)
          push now rest (batch_checkpoint push (record_tag r'.tag_name
            (note_transfer (sync_single_release (fun _ => true) (fun _ => true) now r'
              st.target) st)))
        rw [hs]
        exact List.mem_append_left _ hmem3
    | inr hin =>
      exact hrest r' hin

/-- Processing releases that are all complete and recorded is a
no-operation: the loop state is returned unchanged and nothing is
attempted.  This holds for arbitrary oracles, since no transfer starts. -/
theorem main_loop_noop (dl ul : Asset → Bool) (push : Nat → Bool) (now : Int) :
    ∀ (rs : List Release) (st : LoopSt),
      (∀ r ∈ rs, rel_done st.target r ∧ JAtom.str r.tag_name ∈ st.synced) →
      st.current_batch < BATCH_SIZE →
      main_loop dl ul push now rs st = (st, false) := by
  intro rs
  induction rs with
  | nil =>
    intro st _ _
    rfl
  | cons r rest ih =>
    intro st h hcb
    obtain ⟨hdone, hmem⟩ := h r (List.mem_cons_self r rest)
    rw [main_loop_cons, sync_single_release_noop dl ul now r st.target hdone]
    simp only [Bool.false_eq_true, if_false]
    rw [note_transfer_noop st, record_tag_noop r.tag_name st hmem,
      batch_checkpoint_noop push st hcb]
    exact ih st (fun r' hr' => h r' (List.mem_cons_of_mem _ hr')) hcb

/-- A run over a world whose target already holds every release complete
and whose record already lists every tag performs zero creations and zero
uploads and leaves the state file untouched. -/
theorem main_run_noop (dl ul : Asset → Bool) (push2 : Nat → Bool) (now2 : Int)
    (source : List Release) (w2 : World) (rec : List JAtom)
    (hload2 : (load_synced_versions w2.fs).2 = J.arr rec)
    (hfs2 : (load_synced_versions w2.fs).1 = w2.fs)
    (hdone : ∀ r ∈ to_sync source,
      rel_done w2.target r ∧ JAtom.str r.tag_name ∈ rec) :
    run_creates (main_run dl ul push2 now2 source w2) = 0 ∧
    run_uploads (main_run dl ul push2 now2 source w2) = 0 ∧
    run_record_file (main_run dl ul push2 now2 source w2) = w2.fs RECORD_FILE := by
  have hnoop := main_loop_noop dl ul push2 now2 (to_sync source)
    (init_loop_st w2.fs w2.target rec)
    (fun r hr => hdone r hr) (show 0 < BATCH_SIZE by decide)
  rw [main_run_unfold dl ul push2 now2 source w2 rec hload2, hfs2, hnoop]
  refine ⟨rfl, rfl, ?_⟩
  simp only [run_record_file]
  rw [after_loop_fs_no_growth _ _ (le_refl _)]
  rfl

/-- C5: with every transfer succeeding, running the pipeline twice on an
unchanged source performs zero release creations and zero asset uploads
on the second run, and the state file content after the second run equals
its content after the first run (the modelled content determines the
bytes, since the serializer is deterministic; the second run in fact
writes nothing at all). -/
theorem C5_idempotent_rerun (push push2 : Nat → Bool) (now now2 : Int)
    (source : List Release) (w : World) (synced0 : List JAtom)
    (hload : (load_synced_versions w.fs).2 = J.arr synced0)
    (htags : ((to_sync source).map Release.tag_name).Nodup)
    (hassets : ∀ r ∈ source, (r.assets.map Asset.name).Nodup)
    (htime : ∀ r ∈ source, ∀ a ∈ r.assets, a.updated_at ≤ now) :
    run_creates (main_run (fun _ => true) (fun _ => true) push2 now2 source
      (run_world (main_run (fun _ => true) (fun _ => true) push now source w))) = 0 ∧
    run_uploads (main_run (fun _ => true) (fun _ => true) push2 now2 source
      (run_world (main_run (fun _ => true) (fun _ => true) push now source w))) = 0 ∧
    run_record_file (main_run (fun _ => true) (fun _ => true) push2 now2 source
      (run_world (main_run (fun _ => true) (fun _ => true) push now source w))) =
      run_record_file (main_run (fun _ => true) (fun _ => true) push now source w) := by
  have hmem_source : ∀ r ∈ to_sync source, r ∈ source := by
    intro r hr
    have h1 : r ∈ List.insertionSort (fun a b => a.created_at ≤ b.created_at) source :=
      (List.mem_filter.mp hr).1
    exact (List.perm_insertionSort (fun a b => a.created_at ≤ b.created_at)
      source).mem_iff.mp h1
  have hfix := load_fixes_record w.fs
  rw [hload] at hfix
  obtain ⟨st1, c1, hloop1⟩ : ∃ st1 c1,
      main_loop (fun _ => true) (fun _ => true) push now (to_sync source)
        (init_loop_st (load_synced_versions w.fs).1 w.target synced0) = (st1, c1) :=
    ⟨_, _, rfl⟩
  have hinv1 := main_loop_inv (fun _ => true) (fun _ => true) push now (to_sync source)
    (init_loop_st (load_synced_versions w.fs).1 w.target synced0)
    (init_loop_st_inv _ _ _ hfix)
  rw [hloop1] at hinv1
  obtain ⟨_, hall⟩ := main_loop_all_ok push now (to_sync source)
    (init_loop_st (load_synced_versions w.fs).1 w.target synced0) htags
    (fun r hr => hassets r (hmem_source r hr))
    (fun r hr => htime r (hmem_source r hr))
  rw [hloop1] at hall
  have hrun1 : main_run (fun _ => true) (fun _ => true) push now source w =
      Except.ok (after_loop st1 c1) := by
    rw [main_run_unfold (fun _ => true) (fun _ => true) push now source w synced0
      hload, hloop1]
  have hfile1 : (after_loop st1 c1).world.fs RECORD_FILE =
      some (.json (.arr st1.synced)) :=
    after_loop_record_file st1 c1 hinv1
  have hload2 := load_of_json ((after_loop st1 c1).world.fs) _ hfile1
  obtain ⟨h2creates, h2uploads, h2file⟩ := main_run_noop (fun _ => true)
    (fun _ => true) push2 now2 source (after_loop st1 c1).world st1.synced
    (by rw [hload2]) (by rw [hload2])
    (fun r hr => hall r hr)
  rw [hrun1]
  simp only [run_world]
  exact ⟨h2creates, h2uploads, h2file⟩

theorem C5_idempotent_rerun_witness :
    ((load_synced_versions (fun _ => none)).2 = J.arr []) ∧
    run_creates (main_run (fun _ => true) (fun _ => true) (fun _ => true) 2000
      [⟨"v1.0", "t", "b", false, false, 1, [⟨1, "app.zip", 100, 10, "application/zip"⟩]⟩]
      (run_world (main_run (fun _ => true) (fun _ => true) (fun _ => true) 1000
        [⟨"v1.0", "t", "b", false, false, 1, [⟨1, "app.zip", 100, 10, "application/zip"⟩]⟩]
        ⟨(fun _ => none), []⟩))) = 0 ∧
    run_uploads (main_run (fun _ => true) (fun _ => true) (fun _ => true) 2000
      [⟨"v1.0", "t", "b", false, false, 1, [⟨1, "app.zip", 100, 10, "application/zip"⟩]⟩]
      (run_world (main_run (fun _ => true) (fun _ => true) (fun _ => true) 1000
        [⟨"v1.0", "t", "b", false, false, 1, [⟨1, "app.zip", 100, 10, "application/zip"⟩]⟩]
        ⟨(fun _ => none), []⟩))) = 0 ∧
    run_record_file (main_run (fun _ => true) (fun _ => true) (fun _ => true) 2000
      [⟨"v1.0", "t", "b", false, false, 1, [⟨1, "app.zip", 100, 10, "application/zip"⟩]⟩]
      (run_world (main_run (fun _ => true) (fun _ => true) (fun _ => true) 1000
        [⟨"v1.0", "t", "b", false, false, 1, [⟨1, "app.zip", 100, 10, "application/zip"⟩]⟩]
        ⟨(fun _ => none), []⟩))) =
      run_record_file (main_run (fun _ => true) (fun _ => true) (fun _ => true) 1000
        [⟨"v1.0", "t", "b", false, false, 1, [⟨1, "app.zip", 100, 10, "application/zip"⟩]⟩]
        ⟨(fun _ => none), []⟩) :=
  ⟨by decide,
   C5_idempotent_rerun (fun _ => true) (fun _ => true) 1000 2000
     [⟨"v1.0", "t", "b", false, false, 1, [⟨1, "app.zip", 100, 10, "application/zip"⟩]⟩]
     ⟨(fun _ => none), []⟩ [] (by decide) (by decide) (by decide) (by decide)⟩

end MirrorEtcher
